import Mathlib

/-!
Verification of the wpcli dynamic command-tree builder.

This file gives a shallow embedding, in Lean, of the plugin / flag /
command-tree building code of the wpcli repository (packages
`internal/flags`, `internal/plugins` and the `cmd` shell), and proves or
refutes the specification's claims about it.

Modelling conventions:
- Go strings are Lean `String`s; Go byte-wise string comparison is modelled
  by `charListLe` on the character lists (UTF-8 byte order and code-point
  order agree, so this is faithful).
- Go slices of structs are Lean `List`s of structures.
- Fallible Go functions returning `(T, error)` are modelled with
  `Except String T`; a Go runtime panic (e.g. index out of range) is the
  distinct `BuildRes.crash` outcome of the builder, so that "returns an
  error" and "crashes" are distinguishable.
- File-system reads done by `loadPluginConfig` are modelled by an explicit
  environment function from the path components (plugin uuid, version,
  manifest file name) to the parse result.
- The cobra/pflag library behaviour the code relies on is modelled from the
  library's semantics: `FlagSet.Visit` traverses only the flags that were
  set on the command line, in lexicographical order of flag name (pflag's
  `SortFlags` defaults to `true`); `MarkFlagRequired` fails when the named
  flag is not registered; registering the same flag name twice panics.
-/

/-- Go byte-wise (equivalently code-point-wise) lexicographic `<=` on
character lists, as used by Go's built-in string comparison operators. -/
def charListLe : List Char → List Char → Bool
  | [], _ => true
  | _ :: _, [] => false
  | a :: as, b :: bs => if a < b then true else if b < a then false else charListLe as bs

/-- Go's `<=` on strings (byte-wise lexicographic). -/
def goStrLe (a b : String) : Bool := charListLe a.data b.data

/-- Models Go `strings.Join(xs, sep)`. -/
def goJoin (sep : String) : List String → String
  | [] => ""
  | [x] => x
  | x :: y :: xs => x ++ sep ++ goJoin sep (y :: xs)

/-- Concatenation of the images of a list, used to state "union of all
plugins' commands" properties. -/
def concatMap (f : α → List β) : List α → List β
  | [] => []
  | x :: xs => f x ++ concatMap f xs

/-- Insert into a `le`-sorted list, keeping it sorted. -/
def insertBy (le : α → α → Bool) (a : α) : List α → List α
  | [] => [a]
  | b :: bs => if le a b then a :: b :: bs else b :: insertBy le a bs

/-- Insertion sort.  Models the effect of Go's `sort.Slice` (and of pflag's
`sortFlags`): the code only depends on the output being a sorted permutation
of the input. -/
def sortBy (le : α → α → Bool) : List α → List α
  | [] => []
  | a :: as => insertBy le a (sortBy le as)

theorem mem_insertBy (le : α → α → Bool) (a x : α) (l : List α) :
    x ∈ insertBy le a l ↔ x = a ∨ x ∈ l := by
  induction l with
  | nil => simp [insertBy]
  | cons b bs ih =>
    by_cases h : le a b = true
    · simp [insertBy, h]
    · simp only [insertBy, h, if_neg]
      simp [List.mem_cons, ih]
      tauto

theorem mem_sortBy (le : α → α → Bool) (x : α) (l : List α) :
    x ∈ sortBy le l ↔ x ∈ l := by
  induction l with
  | nil => simp [sortBy]
  | cons a as ih => simp [sortBy, mem_insertBy, ih]

theorem pairwise_insertBy (le : α → α → Bool)
    (htrans : ∀ a b c, le a b = true → le b c = true → le a c = true)
    (htotal : ∀ a b, le a b = true ∨ le b a = true)
    (a : α) (l : List α) (hl : l.Pairwise (fun x y => le x y = true)) :
    (insertBy le a l).Pairwise (fun x y => le x y = true) := by
  induction l with
  | nil => simp [insertBy]
  | cons b bs ih =>
    rcases List.pairwise_cons.mp hl with ⟨hb, hbs⟩
    by_cases h : le a b = true
    · simp only [insertBy, h, if_pos]
      refine List.pairwise_cons.mpr ⟨?_, hl⟩
      intro y hy
      rcases List.mem_cons.mp hy with rfl | hy
      · exact h
      · exact htrans a b y h (hb y hy)
    · simp only [insertBy, h, if_neg]
      refine List.pairwise_cons.mpr ⟨?_, ih hbs⟩
      intro y hy
      rcases (mem_insertBy le a y bs).mp hy with h'' | hy
      · rw [h'']
        rcases htotal a b with h' | h'
        · exact absurd h' h
        · exact h'
      · exact hb y hy

theorem pairwise_sortBy (le : α → α → Bool)
    (htrans : ∀ a b c, le a b = true → le b c = true → le a c = true)
    (htotal : ∀ a b, le a b = true ∨ le b a = true)
    (l : List α) : (sortBy le l).Pairwise (fun x y => le x y = true) := by
  induction l with
  | nil => simp [sortBy]
  | cons a as ih => exact pairwise_insertBy le htrans htotal a (sortBy le as) ih

theorem charListLe_total (a b : List Char) :
    charListLe a b = true ∨ charListLe b a = true := by
  induction a generalizing b with
  | nil => left; rfl
  | cons x xs ih =>
    cases b with
    | nil => right; rfl
    | cons y ys =>
      rcases lt_trichotomy x y with h | h | h
      · left; simp [charListLe, h]
      · subst h
        rcases ih ys with h' | h'
        · left; simp [charListLe, lt_irrefl, h']
        · right; simp [charListLe, lt_irrefl, h']
      · right; simp [charListLe, h]

theorem charListLe_cons_iff (x y : Char) (xs ys : List Char) :
    charListLe (x :: xs) (y :: ys) = true ↔
      x < y ∨ (x = y ∧ charListLe xs ys = true) := by
  rcases lt_trichotomy x y with h | h | h
  · simp [charListLe, h, ne_of_lt h]
  · subst h; simp [charListLe, lt_irrefl]
  · simp [charListLe, h, lt_asymm h, (ne_of_lt h).symm]

theorem charListLe_trans (a b c : List Char)
    (hab : charListLe a b = true) (hbc : charListLe b c = true) :
    charListLe a c = true := by
  induction a generalizing b c with
  | nil => rfl
  | cons x xs ih =>
    cases b with
    | nil => simp [charListLe] at hab
    | cons y ys =>
      cases c with
      | nil => simp [charListLe] at hbc
      | cons z zs =>
        rcases (charListLe_cons_iff x y xs ys).mp hab with hxy | ⟨hxy, hab'⟩
        · rcases (charListLe_cons_iff y z ys zs).mp hbc with hyz | ⟨hyz, _⟩
          · exact (charListLe_cons_iff x z xs zs).mpr (Or.inl (lt_trans hxy hyz))
          · exact (charListLe_cons_iff x z xs zs).mpr (Or.inl (hyz ▸ hxy))
        · rcases (charListLe_cons_iff y z ys zs).mp hbc with hyz | ⟨hyz, hbc'⟩
          · exact (charListLe_cons_iff x z xs zs).mpr (Or.inl (hxy ▸ hyz))
          · exact (charListLe_cons_iff x z xs zs).mpr
              (Or.inr ⟨hxy.trans hyz, ih ys zs hab' hbc'⟩)

theorem goStrLe_total (a b : String) : goStrLe a b = true ∨ goStrLe b a = true :=
  charListLe_total a.data b.data

theorem goStrLe_trans (a b c : String)
    (hab : goStrLe a b = true) (hbc : goStrLe b c = true) : goStrLe a c = true :=
  charListLe_trans a.data b.data c.data hab hbc

/-- Digit-run parser used to model `fmt.Sscanf(s, "%d", &n)`: any leading
digits are consumed, trailing input is ignored (as `Sscanf` does when only
one verb is given), no digits at all is a scan error. -/
def parseDigits (ds : List Char) : Option Nat :=
  match ds.takeWhile Char.isDigit with
  | [] => none
  | d :: digs => some ((d :: digs).foldl (fun n c => n * 10 + (c.toNat - 48)) 0)

/-- Models `fmt.Sscanf(s, "%d", &n)`: skip leading whitespace, optional
sign, then at least one digit (64-bit overflow is not modelled; all values
in this development are tiny). -/
def parseGoInt (s : String) : Option Int :=
  match s.data.dropWhile Char.isWhitespace with
  | '-' :: ds => (parseDigits ds).map (fun n => -(n : Int))
  | '+' :: ds => (parseDigits ds).map (fun n => (n : Int))
  | ds => (parseDigits ds).map (fun n => (n : Int))

/-- Models Go `strings.ToLower` (ASCII range; the manifest kind strings the
code compares against are all ASCII). -/
def goToLower (s : String) : String := ⟨s.data.map Char.toLower⟩

namespace flags

/-- `type FlagType string` of the flags package. -/
abbrev FlagType := String

def TypeString : FlagType := "string"

def TypeBool : FlagType := "bool"

def TypeInt : FlagType := "int"

def TypeEnum : FlagType := "enum"

/-- The `flags.Flag` descriptor (flags package `Flag` struct). -/
structure Flag where
  name : String
  shorthand : String
  type : FlagType
  description : List (String × String)
  required : Bool
  default : String
  validValues : List String
deriving DecidableEq

/-- `strings.TrimPrefix(name, "--")`. -/
def NormalizeFlagName (name : String) : String :=
  if "--".data.isPrefixOf name.data then ⟨name.data.drop 2⟩ else name

/-- `Flag.IsValidValue`: a value is accepted when no `valid_values` are
declared; otherwise an empty value is replaced by the default (when one is
set) before the membership test. -/
def Flag.IsValidValue (f : Flag) (value : String) : Bool :=
  if f.validValues.length == 0 then true
  else
    let v := if value == "" && f.default != "" then f.default else value
    f.validValues.contains v

/-- The four flag handlers of the flags package, as a closed variant (each
Go handler struct carries no state; only the dispatch matters). -/
inductive HandlerKind where
  | string : HandlerKind
  | bool : HandlerKind
  | int : HandlerKind
  | enum : HandlerKind
deriving DecidableEq

/-- `flags.GetHandler`: Enum handler for `TypeEnum`, or for `TypeString`
with non-empty `valid_values`; otherwise dispatch on the type with the
String handler as the default for unknown `FlagType` values. -/
def GetHandler (flagType : FlagType) (flag : Flag) : HandlerKind :=
  if flagType == TypeEnum || (flagType == TypeString && flag.validValues.length > 0) then
    HandlerKind.enum
  else if flagType == TypeString then HandlerKind.string
  else if flagType == TypeBool then HandlerKind.bool
  else if flagType == TypeInt then HandlerKind.int
  else HandlerKind.string

/-- `flags.ParseFlagType`: lower-case the string, map the four known kinds,
default everything else to `TypeString`. -/
def ParseFlagType (typeStr : String) : FlagType :=
  let t := goToLower typeStr
  if t == "string" then TypeString
  else if t == "bool" then TypeBool
  else if t == "int" then TypeInt
  else if t == "enum" then TypeEnum
  else TypeString

/-- The "invalid value" error text shared by the String/Bool/Enum handlers. -/
def invalidValueMsg (f : Flag) (value : String) : String :=
  "invalid value for flag " ++ f.name ++ ": " ++ value ++ ". Valid values are: " ++
    goJoin ", " f.validValues

/-- `ValidateValue` of each handler in `internal/flags/handlers.go`.
The String and Bool handlers delegate to `Flag.IsValidValue`; the Int
handler first requires a successful decimal scan; the Enum handler
substitutes the default for an empty value and then requires membership. -/
def ValidateValue : HandlerKind → Flag → String → Except String Unit
  | HandlerKind.string, f, value =>
      if f.IsValidValue value then Except.ok () else Except.error (invalidValueMsg f value)
  | HandlerKind.bool, f, value =>
      if f.IsValidValue value then Except.ok () else Except.error (invalidValueMsg f value)
  | HandlerKind.int, f, value =>
      match parseGoInt value with
      | none => Except.error ("invalid integer value for flag " ++ f.name ++ ": " ++ value)
      | some n =>
          if f.IsValidValue value then Except.ok ()
          else Except.error ("invalid value for flag " ++ f.name ++ ": " ++ toString n ++
            ". Valid values are: " ++ goJoin ", " f.validValues)
  | HandlerKind.enum, f, value =>
      if f.validValues.length > 0 then
        let v := if value == "" && f.default != "" then f.default else value
        if f.validValues.contains v then Except.ok () else Except.error (invalidValueMsg f v)
      else Except.ok ()

/-- The value each handler's `GetValue` reports for a flag that was
registered by its `AddFlag` and never supplied by the invoker: the String
and Enum handlers register the raw default and read it back; the Bool
handler registers `flag.Default == "true"` and renders it with `%v`; the
Int handler registers the scanned default (0 when empty) and renders it
with `%d`. -/
def registrationValue : HandlerKind → Flag → String
  | HandlerKind.string, f => f.default
  | HandlerKind.enum, f => f.default
  | HandlerKind.bool, f => if f.default == "true" then "true" else "false"
  | HandlerKind.int, f =>
      if f.default == "" then "0"
      else match parseGoInt f.default with
        | some n => toString n
        | none => "0"

/-- The cobra flag-value store of a command on which the invoker supplied
no flag at all: every registered flag still holds its registration
default. -/
def unsuppliedStore (fs : List Flag) : String → String :=
  fun n =>
    match fs.find? (fun f => NormalizeFlagName f.name == n) with
    | some f => registrationValue (GetHandler f.type f) f
    | none => ""

/-- `flags.ValidateFlags`: for every flag of the command (supplied or not),
fetch its current value through the handler and validate it, stopping at
the first error.  `store` is the command's flag-value store as read by the
handlers' `GetValue` (which never returns an error). -/
def ValidateFlags (store : String → String) (fs : List Flag) : Except String Unit :=
  match fs with
  | [] => Except.ok ()
  | f :: rest =>
    match ValidateValue (GetHandler f.type f) f (store (NormalizeFlagName f.name)) with
    | Except.error e => Except.error e
    | Except.ok _ => ValidateFlags store rest

end flags

namespace plugins

/-- `plugins.GetFlagHandler` (internal/plugins/flag_handlers.go): the Enum
handler whenever `valid_values` is non-empty regardless of the kind string;
otherwise a lookup in the `FlagHandlers` map, which fails with an
"unsupported flag type" error for unknown kind strings. -/
def GetFlagHandler (flagType : String) (flag : flags.Flag) : Except String flags.HandlerKind :=
  if flag.validValues.length > 0 then Except.ok flags.HandlerKind.enum
  else if flagType == "string" then Except.ok flags.HandlerKind.string
  else if flagType == "bool" then Except.ok flags.HandlerKind.bool
  else if flagType == "int" then Except.ok flags.HandlerKind.int
  else if flagType == "enum" then Except.ok flags.HandlerKind.enum
  else Except.error ("unsupported flag type: " ++ flagType)

end plugins

/-- A flag with `valid_values = ["a","b"]`, no default, declared kind
`string` — the configuration named by C1 and by §8.4 of the spec. -/
def fC1 : flags.Flag :=
  { name := "mode", shorthand := "", type := flags.TypeString, description := [],
    required := false, default := "", validValues := ["a", "b"] }

/-- C1 counterexample: `ValidateFlags` on a command where the invoker
supplied nothing fails for `fC1` — the un-supplied optional flag is *not*
exempt from `valid_values` checking, its zero value "" is validated and
rejected. -/
theorem c1_counterexample :
    flags.ValidateFlags (flags.unsuppliedStore [fC1]) [fC1] =
      Except.error "invalid value for flag mode: . Valid values are: a, b" := rfl

/-- C1 amended: `ValidateFlags` validates every flag of the command,
supplied or not; for a flag with non-empty `valid_values` and empty
default, the un-supplied command passes validation exactly when the flag's
registration zero-value (as rendered by its handler's `GetValue`) is a
member of `valid_values`. -/
theorem c1_amended (f : flags.Flag) (hvv : f.validValues ≠ []) (hdef : f.default = "") :
    flags.ValidateFlags (flags.unsuppliedStore [f]) [f] = Except.ok () ↔
      f.validValues.contains (flags.registrationValue (flags.GetHandler f.type f) f) = true := by
  have hstore : flags.unsuppliedStore [f] (flags.NormalizeFlagName f.name)
      = flags.registrationValue (flags.GetHandler f.type f) f := by
    simp [flags.unsuppliedStore, List.find?]
  have hlen : (f.validValues.length == 0) = false := by
    simp [hvv]
  have hpos : 0 < f.validValues.length := List.length_pos.mpr hvv
  cases hh : flags.GetHandler f.type f with
  | string =>
    by_cases hc : "" ∈ f.validValues <;>
      simp [flags.ValidateFlags, hstore, hh, flags.ValidateValue, flags.registrationValue,
        flags.Flag.IsValidValue, hlen, hdef, hc]
  | bool =>
    by_cases hc : "false" ∈ f.validValues <;>
      simp [flags.ValidateFlags, hstore, hh, flags.ValidateValue, flags.registrationValue,
        flags.Flag.IsValidValue, hlen, hdef, hc]
  | int =>
    have hparse : parseGoInt "0" = some 0 := rfl
    by_cases hc : "0" ∈ f.validValues <;>
      simp [flags.ValidateFlags, hstore, hh, flags.ValidateValue, flags.registrationValue,
        flags.Flag.IsValidValue, hlen, hdef, hc, hparse]
  | enum =>
    by_cases hc : "" ∈ f.validValues <;>
      simp [flags.ValidateFlags, hstore, hh, flags.ValidateValue, flags.registrationValue,
        hpos, hdef, hc]

/-- C1 witness: the amended statement instantiated at `fC1` (its
hypotheses hold and the iff is realized: "" is not among `a, b`). -/
theorem c1_witness :
    fC1.validValues ≠ [] ∧ fC1.default = "" ∧
      (flags.ValidateFlags (flags.unsuppliedStore [fC1]) [fC1] = Except.ok () ↔
        fC1.validValues.contains
          (flags.registrationValue (flags.GetHandler fC1.type fC1) fC1) = true) :=
  ⟨by decide, rfl, c1_amended fC1 (by decide) rfl⟩

/-- A flag with declared kind `bool` and non-empty `valid_values`, for C2. -/
def fC2 : flags.Flag :=
  { name := "mode", shorthand := "", type := flags.TypeBool, description := [],
    required := false, default := "", validValues := ["a", "b"] }

/-- C2 counterexample: for declared kind Bool with non-empty
`valid_values`, `flags.GetHandler` returns the Bool handler, not the Enum
handler as the claim states. -/
theorem c2_counterexample :
    flags.GetHandler flags.TypeBool fC2 = flags.HandlerKind.bool ∧
      flags.GetHandler flags.TypeBool fC2 ≠ flags.HandlerKind.enum := by
  exact ⟨rfl, by decide⟩

/-- C2 amended: for a flag with non-empty `valid_values`,
`plugins.GetFlagHandler` returns the Enum handler for every declared kind
string, but `flags.GetHandler` returns the Enum handler only for declared
kinds Enum and String; declared kinds Bool and Int keep their own handlers
(whose `ValidateValue` still checks `valid_values` membership, the Int one
after a decimal parse). -/
theorem c2_amended (f : flags.Flag) (t : String) (hvv : f.validValues ≠ []) :
    plugins.GetFlagHandler t f = Except.ok flags.HandlerKind.enum ∧
      flags.GetHandler flags.TypeEnum f = flags.HandlerKind.enum ∧
      flags.GetHandler flags.TypeString f = flags.HandlerKind.enum ∧
      flags.GetHandler flags.TypeBool f = flags.HandlerKind.bool ∧
      flags.GetHandler flags.TypeInt f = flags.HandlerKind.int := by
  have hpos : 0 < f.validValues.length := List.length_pos.mpr hvv
  refine ⟨?_, ?_, ?_, ?_, ?_⟩ <;>
    simp [plugins.GetFlagHandler, flags.GetHandler, flags.TypeEnum, flags.TypeString,
      flags.TypeBool, flags.TypeInt, hpos]

/-- C2 witness: the amended statement instantiated at `fC2` and kind
string "bool". -/
theorem c2_witness :
    fC2.validValues ≠ [] ∧
      (plugins.GetFlagHandler "bool" fC2 = Except.ok flags.HandlerKind.enum ∧
        flags.GetHandler flags.TypeEnum fC2 = flags.HandlerKind.enum ∧
        flags.GetHandler flags.TypeString fC2 = flags.HandlerKind.enum ∧
        flags.GetHandler flags.TypeBool fC2 = flags.HandlerKind.bool ∧
        flags.GetHandler flags.TypeInt fC2 = flags.HandlerKind.int) :=
  ⟨by decide, c2_amended fC2 "bool" (by decide)⟩

/-- A flag with an unrecognized kind string and no `valid_values`, for C9. -/
def fC9 : flags.Flag :=
  { name := "count", shorthand := "", type := "number", description := [],
    required := false, default := "", validValues := [] }

/-- C9 counterexample: handler resolution CAN fail on an unrecognized kind
string with empty `valid_values`: `plugins.GetFlagHandler` returns an
"unsupported flag type" error instead of falling back to the String
handler. -/
theorem c9_counterexample :
    plugins.GetFlagHandler "number" fC9 = Except.error "unsupported flag type: number" := rfl

/-- C9 amended: for an unrecognized kind string (not string/bool/int/enum
after lower-casing) with empty `valid_values`, the flags-package path
(`ParseFlagType` followed by `GetHandler`) silently falls back to the
String handler and never fails, but the plugins-package path
(`GetFlagHandler`) fails with an "unsupported flag type" error. -/
theorem c9_amended (t : String) (f : flags.Flag)
    (ht : goToLower t ∉ (["string", "bool", "int", "enum"] : List String))
    (hvv : f.validValues = []) :
    flags.GetHandler (flags.ParseFlagType t) f = flags.HandlerKind.string ∧
      plugins.GetFlagHandler t f = Except.error ("unsupported flag type: " ++ t) := by
  simp only [List.mem_cons, List.mem_singleton, not_or] at ht
  obtain ⟨h1, h2, h3, h4⟩ := ht
  have hraw : t ∉ (["string", "bool", "int", "enum"] : List String) := by
    intro hmem
    fin_cases hmem <;> simp_all [goToLower]
  simp only [List.mem_cons, List.mem_singleton, not_or] at hraw
  obtain ⟨g1, g2, g3, g4⟩ := hraw
  constructor
  · simp [flags.ParseFlagType, flags.GetHandler, flags.TypeString, flags.TypeBool,
      flags.TypeInt, flags.TypeEnum, h1, h2, h3, h4, hvv]
  · simp [plugins.GetFlagHandler, hvv, g1, g2, g3, g4]

/-- C9 witness: the amended statement instantiated at kind "number" and
`fC9`. -/
theorem c9_witness :
    goToLower "number" ∉ (["string", "bool", "int", "enum"] : List String) ∧
      fC9.validValues = [] ∧
      (flags.GetHandler (flags.ParseFlagType "number") fC9 = flags.HandlerKind.string ∧
        plugins.GetFlagHandler "number" fC9 =
          Except.error ("unsupported flag type: " ++ "number")) :=
  ⟨by decide, rfl, c9_amended "number" fC9 (by decide) rfl⟩

theorem charListLe_refl (a : List Char) : charListLe a a = true := by
  induction a with
  | nil => rfl
  | cons x xs ih => simp [charListLe, lt_irrefl, ih]

theorem goStrLe_refl (a : String) : goStrLe a a = true := charListLe_refl a.data

namespace plugins

/-- One flag visited by `cmd.Flags().Visit` in the generated `RunE`: its
pflag name, its rendered value (`Value.String()`) and its pflag value type
(`Value.Type()`, which is "bool" exactly for flags registered as Bool). -/
structure VisitedFlag where
  name : String
  value : String
  typeName : String
deriving DecidableEq

/-- pflag's `sortFlags` order: ascending lexicographic on the flag name. -/
def visitLe (a b : VisitedFlag) : Bool := goStrLe a.name b.name

/-- The text `RunE` appends for one visited flag: `" --name"` for a bool
flag, `" --name=value"` otherwise. -/
def visitToken (f : VisitedFlag) : String :=
  if f.typeName == "bool" then " --" ++ f.name else " --" ++ f.name ++ "=" ++ f.value

/-- A visited flag rendered without the separating space, for stating the
summary shape. -/
def renderFlag (f : VisitedFlag) : String :=
  if f.typeName == "bool" then "--" ++ f.name else "--" ++ f.name ++ "=" ++ f.value

/-- The execution summary built by the generated `RunE` in
`GetPluginCommands`: `fmt.Sprintf("%s %s", cmdName, strings.Join(args, " "))`,
then one token per flag that the invoker set, appended in the order
`cmd.Flags().Visit` delivers them — lexicographic by flag name, because
pflag's `SortFlags` is true by default on a cobra command's flag set. -/
def buildRunSummary (cmdName : String) (args : List String) (supplied : List VisitedFlag) :
    String :=
  (sortBy visitLe supplied).foldl (fun acc f => acc ++ visitToken f)
    (cmdName ++ " " ++ goJoin " " args)

end plugins

theorem visitToken_eq_space_render (f : plugins.VisitedFlag) :
    plugins.visitToken f = " " ++ plugins.renderFlag f := by
  have hsp : (" " ++ "--" : String) = " --" := rfl
  by_cases h : (f.typeName == "bool") = true <;>
    simp [plugins.visitToken, plugins.renderFlag, h, ← String.append_assoc, hsp]

theorem goJoin_snoc (sep y : String) (xs : List String) (h : xs ≠ []) :
    goJoin sep (xs ++ [y]) = goJoin sep xs ++ sep ++ y := by
  induction xs with
  | nil => cases h rfl
  | cons x xs ih =>
    cases xs with
    | nil => simp [goJoin, String.append_assoc]
    | cons x' xs' =>
      have ih' := ih (by simp)
      simp only [List.cons_append, List.append_eq, goJoin] at ih' ⊢
      rw [ih']
      simp [String.append_assoc]

theorem summary_foldl (S : List plugins.VisitedFlag) (xs : List String) (h : xs ≠ []) :
    S.foldl (fun acc f => acc ++ plugins.visitToken f) (goJoin " " xs) =
      goJoin " " (xs ++ S.map plugins.renderFlag) := by
  induction S generalizing xs with
  | nil => simp
  | cons f S' ih =>
    have step : goJoin " " xs ++ plugins.visitToken f = goJoin " " (xs ++ [plugins.renderFlag f]) := by
      rw [visitToken_eq_space_render, goJoin_snoc _ _ _ h, String.append_assoc]
    calc (f :: S').foldl (fun acc g => acc ++ plugins.visitToken g) (goJoin " " xs)
        = S'.foldl (fun acc g => acc ++ plugins.visitToken g)
            (goJoin " " (xs ++ [plugins.renderFlag f])) := by
          simp only [List.foldl_cons, step]
      _ = goJoin " " ((xs ++ [plugins.renderFlag f]) ++ S'.map plugins.renderFlag) :=
          ih (xs ++ [plugins.renderFlag f]) (by simp)
      _ = goJoin " " (xs ++ (f :: S').map plugins.renderFlag) := by
          simp

/-- The two explicitly supplied flags from the C3 example, as pflag visits
them: `--version=1.2.3` (a string flag) and `--force` (a bool flag). -/
def vfVersion : plugins.VisitedFlag := { name := "version", value := "1.2.3", typeName := "string" }

def vfForce : plugins.VisitedFlag := { name := "force", value := "true", typeName := "bool" }

/-- C3 counterexample: with positional args `["my-package"]` and flags
supplied as `--version=1.2.3 --force`, the summary is
`"install my-package --force --version=1.2.3"` (pflag's `Visit` delivers
set flags in lexicographic name order), not the claimed supplied-order
rendering. -/
theorem c3_counterexample :
    plugins.buildRunSummary "install" ["my-package"] [vfVersion, vfForce] =
        "install my-package --force --version=1.2.3" ∧
      plugins.buildRunSummary "install" ["my-package"] [vfVersion, vfForce] ≠
        "install my-package --version=1.2.3 --force" := by
  exact ⟨rfl, by decide⟩

/-- C3 amended: the execution summary is the command's resolved name, the
positional arguments in order, then exactly the explicitly supplied flags,
rendered `--name` for bool-typed flags and `--name=value` otherwise — but
in ascending lexicographic order of flag name, not in the order the
invoker supplied them. -/
theorem c3_amended (cmdName : String) (args : List String)
    (supplied : List plugins.VisitedFlag) (h : args ≠ []) :
    plugins.buildRunSummary cmdName args supplied =
        goJoin " " (cmdName :: (args ++ (sortBy plugins.visitLe supplied).map plugins.renderFlag)) ∧
      (sortBy plugins.visitLe supplied).Pairwise
        (fun a b => goStrLe a.name b.name = true) := by
  constructor
  · have h1 : cmdName ++ " " ++ goJoin " " args = goJoin " " (cmdName :: args) := by
      cases args with
      | nil => cases h rfl
      | cons a as => rfl
    unfold plugins.buildRunSummary
    rw [h1, summary_foldl _ _ (by simp)]
    simp
  · exact pairwise_sortBy plugins.visitLe
      (fun a b c hab hbc => goStrLe_trans a.name b.name c.name hab hbc)
      (fun a b => goStrLe_total a.name b.name)
      supplied

/-- C3 witness: the amended statement realized on the spec's own example. -/
theorem c3_witness :
    (["my-package"] : List String) ≠ [] ∧
      (plugins.buildRunSummary "install" ["my-package"] [vfVersion, vfForce] =
          goJoin " " ("install" :: (["my-package"] ++
            (sortBy plugins.visitLe [vfVersion, vfForce]).map plugins.renderFlag)) ∧
        (sortBy plugins.visitLe [vfVersion, vfForce]).Pairwise
          (fun a b => goStrLe a.name b.name = true)) :=
  ⟨by decide, c3_amended "install" ["my-package"] [vfVersion, vfForce] (by decide)⟩

namespace plugins

/-- A `Version` entry of a plugin record in `plugins.yml`. -/
structure Version where
  version : String
  wasm : String
  conf : String
deriving DecidableEq

/-- A `Plugin` record of `plugins.yml` (the fields the command-tree builder
reads; description/settings fields are not consumed by
`GetPluginCommands`). -/
structure Plugin where
  name : String
  uuid : String
  versions : List Version
  subcommand : String
deriving DecidableEq

/-- The parsed `plugins.yml` (the builder only reads `Plugins`). -/
structure PluginConfig where
  plugins : List Plugin
deriving DecidableEq

/-- The comparison of `sort.Slice(versions, ...)` in `GetPluginCommands`:
descending plain lexicographic order on the `version` strings. -/
def verGe (a b : Version) : Bool := goStrLe b.version a.version

/-- `GetPluginCommands` sorts the copied versions descending and then takes
index 0; `none` models the out-of-range panic on an empty slice. -/
def latestVersion? (p : Plugin) : Option Version := (sortBy verGe p.versions).head?

end plugins

/-- C4: for every plugin with a non-empty versions list, the selected
"latest" version is a member of the list and is maximal under plain
lexicographic (byte-wise) string comparison of the `version` fields — the
sort is not semantic-version aware. -/
theorem c4_confirmed (p : plugins.Plugin) (v w : plugins.Version)
    (_hne : p.versions ≠ []) (hsel : plugins.latestVersion? p = some v)
    (hw : w ∈ p.versions) :
    v ∈ p.versions ∧ goStrLe w.version v.version = true := by
  unfold plugins.latestVersion? at hsel
  cases hs : sortBy plugins.verGe p.versions with
  | nil => rw [hs] at hsel; simp at hsel
  | cons v0 rest =>
    rw [hs] at hsel
    simp only [List.head?_cons, Option.some.injEq] at hsel
    subst hsel
    have hpair : (sortBy plugins.verGe p.versions).Pairwise
        (fun x y => plugins.verGe x y = true) :=
      pairwise_sortBy plugins.verGe
        (fun a b c hab hbc => goStrLe_trans c.version b.version a.version hbc hab)
        (fun a b => (goStrLe_total b.version a.version).elim Or.inl Or.inr)
        p.versions
    rw [hs] at hpair
    rcases List.pairwise_cons.mp hpair with ⟨hhead, _⟩
    constructor
    · have hv : v0 ∈ sortBy plugins.verGe p.versions := by
        rw [hs]; exact List.mem_cons_self v0 rest
      exact (mem_sortBy plugins.verGe v0 p.versions).mp hv
    · have hw' : w ∈ sortBy plugins.verGe p.versions :=
        (mem_sortBy plugins.verGe w p.versions).mpr hw
      rw [hs] at hw'
      rcases List.mem_cons.mp hw' with h | h
      · rw [h]; exact goStrLe_refl v0.version
      · exact hhead w h

/-- The spec's quirk example: versions 1.0, 2.0, 10.0. -/
def pC4 : plugins.Plugin :=
  { name := "quirky", uuid := "u-quirk", subcommand := "",
    versions := [{ version := "1.0", wasm := "a.wasm", conf := "a.yml" },
                 { version := "2.0", wasm := "b.wasm", conf := "b.yml" },
                 { version := "10.0", wasm := "c.wasm", conf := "c.yml" }] }

/-- C4 witness: on versions `["1.0","2.0","10.0"]` the builder selects
`"2.0"` (not `"10.0"`), and `"10.0"` is indeed below `"2.0"` in the code's
lexicographic order. -/
theorem c4_witness :
    pC4.versions ≠ [] ∧
      plugins.latestVersion? pC4 =
        some { version := "2.0", wasm := "b.wasm", conf := "b.yml" } ∧
      ({ version := "2.0", wasm := "b.wasm", conf := "b.yml" } : plugins.Version) ∈ pC4.versions ∧
      goStrLe "10.0" "2.0" = true :=
  ⟨by decide, rfl,
    c4_confirmed pC4 { version := "2.0", wasm := "b.wasm", conf := "b.yml" }
      { version := "10.0", wasm := "c.wasm", conf := "c.yml" } (by decide) rfl (by decide)⟩

namespace plugins

/-- One argument spec of a manifest command (`Args` entry). -/
structure ArgCfg where
  name : String
  type : String
  descrEN : String
  required : Bool
deriving DecidableEq

/-- One flag spec of a manifest command as declared in `commands.go`'s
`PluginCommandConfig` (note: no `valid_values` field exists there). -/
structure FlagCfg where
  name : String
  shorthand : String
  type : String
  descrEN : String
  required : Bool
  default : String
deriving DecidableEq

/-- One command of a plugin manifest (`PluginCommandConfig`); `examples`
holds the example command strings. -/
structure CmdCfg where
  name : String
  descrEN : String
  usage : String
  examples : List String
  args : List ArgCfg
  flags : List FlagCfg
deriving DecidableEq

/-- A plugin-version manifest (`PluginYAMLConfig`). -/
structure PluginYAMLConfig where
  name : String
  version : String
  commands : List CmdCfg
deriving DecidableEq

/-- A flag as registered on a generated cobra command's flag set. -/
structure RegisteredFlag where
  name : String
  shorthand : String
  isBool : Bool
  defValue : String
deriving DecidableEq

/-- A generated leaf cobra command: everything `GetPluginCommands` sets on
it (`Use`, `Short`, `Long`, the captured required-argument count and
command name used by `Args`/`RunE`, and its registered flag set). -/
structure Cmd where
  use : String
  short : String
  long : String
  requiredArgs : Nat
  runName : String
  flagSet : List RegisteredFlag
deriving DecidableEq

/-- A subcommand-group parent command with its accumulated children. -/
structure Parent where
  use : String
  short : String
  long : String
  children : List Cmd
deriving DecidableEq

/-- An entry of the final command forest: either a subcommand-group parent
or a loose top-level command. -/
inductive RootCmd where
  | parent : Parent → RootCmd
  | single : Cmd → RootCmd
deriving DecidableEq

/-- Outcome of the build: a value, an error return, or a Go runtime panic
(`crash`) — the latter is what an out-of-range slice index produces. -/
inductive BuildRes (α : Type) where
  | ok : α → BuildRes α
  | err : String → BuildRes α
  | crash : String → BuildRes α
deriving DecidableEq

/-- The panic message of indexing `versions[0]` on an empty slice. -/
def oobMsg : String := "runtime error: index out of range [0] with length 0"

/-- Strips the `"--"` marker from a manifest flag name
(`len(flagName) > 2 && flagName[:2] == "--"`). -/
def stripFlagMarker (s : String) : String :=
  if s.length > 2 && "--".data.isPrefixOf s.data then ⟨s.data.drop 2⟩ else s

/-- Strips the `"-"` marker from a non-empty shorthand
(`len(shorthand) > 1 && shorthand[0] == '-'`). -/
def stripShorthandMarker (s : String) : String :=
  if s.length > 1 && "-".data.isPrefixOf s.data then ⟨s.data.drop 1⟩ else s

/-- The flag-registration loop of `GetPluginCommands` (commands.go
199-253): `"string"`- and `"bool"`-typed flags are added to the command's
flag set (any other type string is silently skipped — there is no default
case); pflag panics on a redefined flag name; `MarkFlagRequired` then
fails, aborting the build with an error, when the named flag is not in the
flag set.  (The hard-wired `list --format` PreRunE installed for one
specific flag does not affect any property stated here and is not
modelled.) -/
def registerFlags : List FlagCfg → List RegisteredFlag → BuildRes (List RegisteredFlag)
  | [], acc => BuildRes.ok acc
  | f :: fs, acc =>
    let flagName := stripFlagMarker f.name
    let sh := if f.shorthand != "" then stripShorthandMarker f.shorthand else ""
    match f.type with
    | "string" =>
        if acc.any (fun r => r.name == flagName) then
          BuildRes.crash (flagName ++ " flag redefined")
        else
          let acc' := acc ++ [{ name := flagName, shorthand := sh, isBool := false,
                                defValue := f.default }]
          if f.required && !(acc'.any (fun r => r.name == flagName)) then
            BuildRes.err ("failed to mark flag " ++ flagName ++ " as required: no such flag -" ++
              flagName)
          else registerFlags fs acc'
    | "bool" =>
        if acc.any (fun r => r.name == flagName) then
          BuildRes.crash (flagName ++ " flag redefined")
        else
          let acc' := acc ++ [{ name := flagName, shorthand := sh, isBool := true,
                                defValue := if f.default == "true" then "true" else "false" }]
          if f.required && !(acc'.any (fun r => r.name == flagName)) then
            BuildRes.err ("failed to mark flag " ++ flagName ++ " as required: no such flag -" ++
              flagName)
          else registerFlags fs acc'
    | _ =>
        if f.required && !(acc.any (fun r => r.name == flagName)) then
          BuildRes.err ("failed to mark flag " ++ flagName ++ " as required: no such flag -" ++
            flagName)
        else registerFlags fs acc

/-- `requiredArgs` computed by the builder's counting loop. -/
def countRequiredArgs (args : List ArgCfg) : Nat :=
  args.foldl (fun n a => if a.required then n + 1 else n) 0

/-- Strip the host tool's own leading program-name token from the usage
pattern (`strings.HasPrefix(usage, "wpcli ")` then `usage[6:]`). -/
def stripToolName (usage : String) : String :=
  if "wpcli ".data.isPrefixOf usage.data then ⟨usage.data.drop 6⟩ else usage

/-- The `Long` text of a generated command: description, then one
"Arguments" line per argument spec, then the examples block (the
`strings.ReplaceAll` call on `Use` replaces `"<name>"` with itself and is
the identity, so `Use` is not modelled as changing). -/
def buildLong (c : CmdCfg) : String :=
  let afterArgs := c.args.foldl
    (fun l a => l ++ "\n\nArguments:\n  " ++ a.name ++ " (" ++ a.type ++ ") - " ++ a.descrEN)
    c.descrEN
  if c.examples.length > 0 then
    afterArgs ++ "\n\nExamples:\n" ++ c.examples.foldl (fun acc e => acc ++ "  " ++ e ++ "\n") ""
  else afterArgs

/-- The arguments-count validator attached as `Args` to every generated
command. -/
def validateArgs (requiredArgs : Nat) (args : List String) : Except String Unit :=
  if args.length < requiredArgs then
    Except.error ("requires at least " ++ toString requiredArgs ++ " argument(s)")
  else Except.ok ()

/-- Build one leaf command from a manifest command config (commands.go
128-253, before the parent/root attachment). -/
def buildCmd (c : CmdCfg) : BuildRes Cmd :=
  match registerFlags c.flags [] with
  | BuildRes.err e => BuildRes.err e
  | BuildRes.crash m => BuildRes.crash m
  | BuildRes.ok fs =>
      BuildRes.ok { use := stripToolName c.usage, short := c.descrEN, long := buildLong c,
                    requiredArgs := countRequiredArgs c.args, runName := c.name, flagSet := fs }

/-- Build all commands of one manifest, stopping at the first failure (the
Go loop returns on the first error). -/
def buildAll : List CmdCfg → BuildRes (List Cmd)
  | [] => BuildRes.ok []
  | c :: cs =>
    match buildCmd c with
    | BuildRes.err e => BuildRes.err e
    | BuildRes.crash m => BuildRes.crash m
    | BuildRes.ok b =>
        match buildAll cs with
        | BuildRes.err e => BuildRes.err e
        | BuildRes.crash m => BuildRes.crash m
        | BuildRes.ok bs => BuildRes.ok (b :: bs)

end plugins

namespace plugins

/-- The short text of a freshly created subcommand-group parent. -/
def parentShort (ns pname ver : String) : String :=
  "Commands for " ++ ns ++ " plugins (from " ++ pname ++ " v" ++ ver ++ ")"

/-- The long text of a freshly created subcommand-group parent. -/
def parentLong (ns pname ver : String) : String :=
  "Commands for " ++ ns ++ " plugins\n\nVersion: " ++ ver ++ "\n\nPlugin: " ++ pname

/-- A freshly created subcommand-group parent command. -/
def mkGroupParent (ns pname ver : String) (children : List Cmd) : Parent :=
  { use := ns, short := parentShort ns pname ver, long := parentLong ns pname ver,
    children := children }

/-- Annotation of a child command added under a group parent. -/
def annotateChild (c : Cmd) (pname ver : String) : Cmd :=
  { c with short := c.short ++ " (from " ++ pname ++ " v" ++ ver ++ ")" }

/-- Annotation of a loose root-level command (short and long both get the
plugin/version stamp). -/
def annotateRoot (c : Cmd) (pname ver : String) : Cmd :=
  { c with short := c.short ++ " (from " ++ pname ++ " v" ++ ver ++ ")",
           long := c.long ++ "\n\nPlugin: " ++ pname ++ "\nVersion: " ++ ver }

/-- A reference in `rootCommands` order: a subcommand-group parent
(identified by its namespace, since the Go slice stores the pointer whose
children keep growing) or a loose command. -/
inductive RootRef where
  | group : String → RootRef
  | leaf : Cmd → RootRef
deriving DecidableEq

/-- The builder's accumulator: the `subcommandGroups` map (association
list keyed by namespace) and the `rootCommands` slice. -/
structure BState where
  groups : List (String × Parent)
  order : List RootRef
deriving DecidableEq

/-- Lookup in the `subcommandGroups` map (first entry with the key). -/
def lookupNs : List (String × Parent) → String → Option Parent
  | [], _ => none
  | kv :: g, ns => if kv.1 == ns then some kv.2 else lookupNs g ns

/-- `parentCmd.AddCommand(...)` on an existing group: append the new
children to the parent stored under the namespace key (keys are unique in
the map, so updating every match updates the single entry). -/
def addChildren : List (String × Parent) → String → List Cmd → List (String × Parent)
  | [], _, _ => []
  | kv :: g, ns, kids =>
    if kv.1 == ns then
      (kv.1, { kv.2 with children := kv.2.children ++ kids }) :: addChildren g ns kids
    else kv :: addChildren g ns kids

/-- The environment standing for the filesystem + YAML parse performed by
`loadPluginConfig`: the manifest path is a function of the plugin uuid,
the selected version string and that version's `conf` file name. -/
abbrev LoadFn := String → String → String → Except String PluginYAMLConfig

/-- Attach one successfully built plugin's commands to the builder state
(commands.go 109-125 for the parent get-or-create, 255-265 for adding each
command to the parent or to `rootCommands`). -/
def attach (s : BState) (p : Plugin) (latest : Version) (cmds : List Cmd) : BState :=
  if p.subcommand == "" then
    { s with order := s.order ++ cmds.map (fun c => RootRef.leaf (annotateRoot c p.name latest.version)) }
  else
    match lookupNs s.groups p.subcommand with
    | some _ =>
        { groups := addChildren s.groups p.subcommand
            (cmds.map (fun c => annotateChild c p.name latest.version)),
          order := s.order }
    | none =>
        { groups := s.groups ++ [(p.subcommand,
            mkGroupParent p.subcommand p.name latest.version
              (cmds.map (fun c => annotateChild c p.name latest.version)))],
          order := s.order ++ [RootRef.group p.subcommand] }

/-- The error text wrapping a failed manifest load. -/
def wrapLoadErr (pname e : String) : String :=
  "failed to load plugin config for " ++ pname ++ ": " ++ e

/-- Process one plugin of the registry loop: select the latest version
(panicking on an empty versions slice), load its manifest, build its
commands, and attach them. -/
def processPlugin (load : LoadFn) (s : BState) (p : Plugin) : BuildRes BState :=
  match latestVersion? p with
  | none => BuildRes.crash oobMsg
  | some latest =>
    match load p.uuid latest.version latest.conf with
    | Except.error e => BuildRes.err (wrapLoadErr p.name e)
    | Except.ok ycfg =>
      match buildAll ycfg.commands with
      | BuildRes.err e => BuildRes.err e
      | BuildRes.crash m => BuildRes.crash m
      | BuildRes.ok cmds => BuildRes.ok (attach s p latest cmds)

/-- The registry loop of `GetPluginCommands`. -/
def processPlugins (load : LoadFn) : List Plugin → BState → BuildRes BState
  | [], s => BuildRes.ok s
  | p :: ps, s =>
    match processPlugin load s p with
    | BuildRes.ok s' => processPlugins load ps s'
    | BuildRes.err e => BuildRes.err e
    | BuildRes.crash m => BuildRes.crash m

/-- Resolve a `rootCommands` entry to the final command it denotes (group
parents carry the children accumulated over the whole loop). -/
def resolveRef (groups : List (String × Parent)) : RootRef → RootCmd
  | RootRef.group ns =>
      RootCmd.parent ((lookupNs groups ns).getD
        { use := ns, short := "", long := "", children := [] })
  | RootRef.leaf c => RootCmd.single c

/-- `plugins.GetPluginCommands`, with the registry already parsed and the
per-plugin manifest reads abstracted into `load`. -/
def GetPluginCommands (load : LoadFn) (cfg : PluginConfig) : BuildRes (List RootCmd) :=
  match processPlugins load cfg.plugins { groups := [], order := [] } with
  | BuildRes.ok s => BuildRes.ok (s.order.map (resolveRef s.groups))
  | BuildRes.err e => BuildRes.err e
  | BuildRes.crash m => BuildRes.crash m

/-- Whether processing a plugin succeeds; this does not depend on the
builder state. -/
def processOk (load : LoadFn) (p : Plugin) : Bool :=
  match latestVersion? p with
  | none => false
  | some latest =>
    match load p.uuid latest.version latest.conf with
    | Except.error _ => false
    | Except.ok ycfg =>
      match buildAll ycfg.commands with
      | BuildRes.ok _ => true
      | _ => false

/-- The latest version a plugin's processing uses (junk when the versions
list is empty; only read under a `processOk`/success hypothesis). -/
def latestOf (p : Plugin) : Version :=
  (latestVersion? p).getD { version := "", wasm := "", conf := "" }

/-- The commands a plugin's processing builds (junk `[]` on any failure;
only read under a success hypothesis). -/
def cmdsOf (load : LoadFn) (p : Plugin) : List Cmd :=
  match latestVersion? p with
  | none => []
  | some latest =>
    match load p.uuid latest.version latest.conf with
    | Except.error _ => []
    | Except.ok ycfg =>
      match buildAll ycfg.commands with
      | BuildRes.ok cmds => cmds
      | _ => []

/-- The children a plugin contributes under its subcommand group. -/
def pluginChildren (load : LoadFn) (p : Plugin) : List Cmd :=
  (cmdsOf load p).map (fun c => annotateChild c p.name (latestOf p).version)

/-- The loose root commands a namespace-less plugin contributes. -/
def pluginRootLeaves (load : LoadFn) (p : Plugin) : List Cmd :=
  (cmdsOf load p).map (fun c => annotateRoot c p.name (latestOf p).version)

end plugins

theorem countRequiredArgs_foldl (l : List plugins.ArgCfg) (n : Nat) :
    l.foldl (fun n a => if a.required then n + 1 else n) n =
      n + (l.filter (fun a => a.required)).length := by
  induction l generalizing n with
  | nil => simp
  | cons a l ih =>
    by_cases h : a.required = true <;> simp [h, ih] <;> omega

/-- C8: every generated command's `requiredArgs` is the number of argument
specs marked required, and the attached `Args` validator errors with
"requires at least N argument(s)" exactly when fewer positional arguments
are supplied, succeeding for any count at or above it (extra trailing
arguments are accepted). -/
theorem c8_confirmed (c : plugins.CmdCfg) (b : plugins.Cmd) (args : List String)
    (hb : plugins.buildCmd c = plugins.BuildRes.ok b) :
    b.requiredArgs = (c.args.filter (fun a => a.required)).length ∧
      (plugins.validateArgs b.requiredArgs args =
          Except.error ("requires at least " ++ toString b.requiredArgs ++ " argument(s)") ↔
        args.length < b.requiredArgs) ∧
      (plugins.validateArgs b.requiredArgs args = Except.ok () ↔
        b.requiredArgs ≤ args.length) := by
  have hreq : b.requiredArgs = (c.args.filter (fun a => a.required)).length := by
    unfold plugins.buildCmd at hb
    cases hr : plugins.registerFlags c.flags [] with
    | err e => rw [hr] at hb; cases hb
    | crash m => rw [hr] at hb; cases hb
    | ok fs =>
        rw [hr] at hb
        cases hb
        simpa [plugins.countRequiredArgs] using countRequiredArgs_foldl c.args 0
  refine ⟨hreq, ?_, ?_⟩ <;> unfold plugins.validateArgs <;>
    by_cases h : args.length < b.requiredArgs <;> simp [h] <;> omega

/-- A manifest command with two required arguments (spec §8.3). -/
def cC8 : plugins.CmdCfg :=
  { name := "copy", descrEN := "copy things", usage := "wpcli copy <src> <dst>", examples := [],
    args := [{ name := "src", type := "string", descrEN := "the source", required := true },
             { name := "dst", type := "string", descrEN := "the target", required := true }],
    flags := [] }

/-- The command `buildCmd` generates from `cC8`. -/
def bC8 : plugins.Cmd :=
  match plugins.buildCmd cC8 with
  | plugins.BuildRes.ok b => b
  | _ => { use := "", short := "", long := "", requiredArgs := 0, runName := "", flagSet := [] }

/-- C8 witness: the command declaring 2 required arguments fails the
validator with 1 positional argument and passes with 3 (one extra). -/
theorem c8_witness :
    ((plugins.buildCmd cC8 = plugins.BuildRes.ok bC8) ∧
      bC8.requiredArgs = (cC8.args.filter (fun a => a.required)).length ∧
      (plugins.validateArgs bC8.requiredArgs ["my-package"] =
          Except.error ("requires at least " ++ toString bC8.requiredArgs ++ " argument(s)") ↔
        (["my-package"] : List String).length < bC8.requiredArgs) ∧
      (plugins.validateArgs bC8.requiredArgs ["a", "b", "c"] = Except.ok () ↔
        bC8.requiredArgs ≤ (["a", "b", "c"] : List String).length)) :=
  ⟨rfl, (c8_confirmed cC8 bC8 ["my-package"] rfl).1,
    (c8_confirmed cC8 bC8 ["my-package"] rfl).2.1,
    (c8_confirmed cC8 bC8 ["a", "b", "c"] rfl).2.2⟩

/-- Processing success is state-independent: a plugin that passes
`processOk` processes from any state to the attached state. -/
theorem processPlugin_of_ok (load : plugins.LoadFn) (p : plugins.Plugin) (s : plugins.BState)
    (h : plugins.processOk load p = true) :
    plugins.processPlugin load s p =
      plugins.BuildRes.ok (plugins.attach s p (plugins.latestOf p) (plugins.cmdsOf load p)) := by
  cases hv : plugins.latestVersion? p with
  | none => simp [plugins.processOk, hv] at h
  | some latest =>
    cases hl : load p.uuid latest.version latest.conf with
    | error e => simp [plugins.processOk, hv, hl] at h
    | ok ycfg =>
      cases hball : plugins.buildAll ycfg.commands with
      | err e => simp [plugins.processOk, hv, hl, hball] at h
      | crash m => simp [plugins.processOk, hv, hl, hball] at h
      | ok cmds =>
        simp [plugins.processPlugin, plugins.latestOf, plugins.cmdsOf, hv, hl, hball]

/-- Running the loop over a prefix of plugins that all process successfully
just folds `attach` over them. -/
def applyPlugins (load : plugins.LoadFn) : List plugins.Plugin → plugins.BState → plugins.BState
  | [], s => s
  | p :: ps, s =>
      applyPlugins load ps (plugins.attach s p (plugins.latestOf p) (plugins.cmdsOf load p))

theorem processPlugins_ok_prefix (load : plugins.LoadFn) (pre rest : List plugins.Plugin)
    (s : plugins.BState) (hpre : ∀ q ∈ pre, plugins.processOk load q = true) :
    plugins.processPlugins load (pre ++ rest) s =
      plugins.processPlugins load rest (applyPlugins load pre s) := by
  induction pre generalizing s with
  | nil => rfl
  | cons q pre' ih =>
    have hq : plugins.processOk load q = true := hpre q (List.mem_cons_self q pre')
    have hrest : ∀ r ∈ pre', plugins.processOk load r = true :=
      fun r hr => hpre r (List.mem_cons_of_mem q hr)
    simp only [List.cons_append, plugins.processPlugins, processPlugin_of_ok load q s hq]
    exact ih _ hrest

/-- C5 amended: a plugin record with an empty versions list makes
`GetPluginCommands` crash with an index-out-of-range panic (it is not
surfaced as an error value); no command forest is produced. -/
theorem c5_amended (load : plugins.LoadFn) (cfg : plugins.PluginConfig)
    (pre : List plugins.Plugin) (p : plugins.Plugin) (post : List plugins.Plugin)
    (hsplit : cfg.plugins = pre ++ p :: post)
    (hpre : ∀ q ∈ pre, plugins.processOk load q = true)
    (hempty : p.versions = []) :
    plugins.GetPluginCommands load cfg = plugins.BuildRes.crash plugins.oobMsg := by
  have hlat : plugins.latestVersion? p = none := by
    unfold plugins.latestVersion?
    rw [hempty]
    rfl
  unfold plugins.GetPluginCommands
  rw [hsplit, processPlugins_ok_prefix load pre (p :: post) _ hpre]
  simp [plugins.processPlugins, plugins.processPlugin, hlat]

/-- Whether a build outcome is an error return (as opposed to a success or
a crash). -/
def isErr : plugins.BuildRes α → Bool
  | plugins.BuildRes.err _ => true
  | _ => false

/-- The plugin with the missing versions list and its registry, for C5. -/
def pC5 : plugins.Plugin := { name := "noVers", uuid := "u0", versions := [], subcommand := "" }

def cfgC5 : plugins.PluginConfig := { plugins := [pC5] }

def loadC5 : plugins.LoadFn :=
  fun _ _ _ => Except.ok { name := "m", version := "1", commands := [] }

/-- C5 counterexample: on a registry whose only plugin has an empty
versions list, the build crashes (index out of range), and in particular
does not return an error value as the claim states. -/
theorem c5_counterexample :
    plugins.GetPluginCommands loadC5 cfgC5 = plugins.BuildRes.crash plugins.oobMsg ∧
      isErr (plugins.GetPluginCommands loadC5 cfgC5) = false :=
  ⟨rfl, rfl⟩

/-- C5 witness: the amended statement realized on the concrete registry. -/
theorem c5_witness :
    cfgC5.plugins = [] ++ pC5 :: [] ∧ pC5.versions = [] ∧
      plugins.GetPluginCommands loadC5 cfgC5 = plugins.BuildRes.crash plugins.oobMsg :=
  ⟨rfl, rfl, c5_amended loadC5 cfgC5 [] pC5 [] rfl (by simp) rfl⟩

/-- C7: if every plugin before `p` processes successfully and `p`'s
manifest load fails, the whole build returns the wrapped error naming `p`
(and hence returns no command list at all — no partial tree). -/
theorem c7_confirmed (load : plugins.LoadFn) (cfg : plugins.PluginConfig)
    (pre : List plugins.Plugin) (p : plugins.Plugin) (post : List plugins.Plugin)
    (latest : plugins.Version) (e : String)
    (hsplit : cfg.plugins = pre ++ p :: post)
    (hpre : ∀ q ∈ pre, plugins.processOk load q = true)
    (hlatest : plugins.latestVersion? p = some latest)
    (hload : load p.uuid latest.version latest.conf = Except.error e) :
    plugins.GetPluginCommands load cfg =
      plugins.BuildRes.err (plugins.wrapLoadErr p.name e) := by
  unfold plugins.GetPluginCommands
  rw [hsplit, processPlugins_ok_prefix load pre (p :: post) _ hpre]
  simp [plugins.processPlugins, plugins.processPlugin, hlatest, hload]

/-- The concrete two-plugin registry for C7: the first plugin's manifest
loads, the second one's does not. -/
def pC7a : plugins.Plugin :=
  { name := "good", uuid := "u1",
    versions := [{ version := "1.0", wasm := "g.wasm", conf := "g.yml" }], subcommand := "" }

def pC7b : plugins.Plugin :=
  { name := "broken", uuid := "u2",
    versions := [{ version := "1.0", wasm := "b.wasm", conf := "b.yml" }], subcommand := "" }

def loadC7 : plugins.LoadFn :=
  fun uuid _ _ =>
    if uuid == "u1" then
      Except.ok { name := "good", version := "1.0",
                  commands := [{ name := "hello", descrEN := "say hello", usage := "wpcli hello",
                                 examples := [], args := [], flags := [] }] }
    else Except.error "failed to read plugin config: open missing.yml: no such file or directory"

def cfgC7 : plugins.PluginConfig := { plugins := [pC7a, pC7b] }

/-- C7 witness: with the first plugin fine and the second plugin's
manifest unreadable, the whole build returns the wrapped error naming the
second plugin. -/
theorem c7_witness :
    cfgC7.plugins = [pC7a] ++ pC7b :: [] ∧
      plugins.latestVersion? pC7b =
        some { version := "1.0", wasm := "b.wasm", conf := "b.yml" } ∧
      plugins.GetPluginCommands loadC7 cfgC7 =
        plugins.BuildRes.err (plugins.wrapLoadErr "broken"
          "failed to read plugin config: open missing.yml: no such file or directory") :=
  ⟨rfl, rfl,
    c7_confirmed loadC7 cfgC7 [pC7a] pC7b []
      { version := "1.0", wasm := "b.wasm", conf := "b.yml" }
      "failed to read plugin config: open missing.yml: no such file or directory"
      rfl (by decide) rfl rfl⟩

namespace plugins

/-- The keys of the `subcommandGroups` map. -/
def keysOf (groups : List (String × Parent)) : List String := groups.map (fun kv => kv.1)

/-- The first plugin in registry order declaring the namespace `ns`. -/
def nsFirst (ns : String) (ps : List Plugin) : Option Plugin :=
  (ps.filter (fun p => p.subcommand == ns)).head?

/-- All children contributed to namespace `ns` by the plugins `ps`, in
registry order. -/
def nsChildren (load : LoadFn) (ns : String) (ps : List Plugin) : List Cmd :=
  concatMap (pluginChildren load) (ps.filter (fun p => p.subcommand == ns))

/-- The parent command the build produces for namespace `ns` from the
registry `ps`: display metadata from the first declaring plugin, children
from all declaring plugins. -/
def groupParent (load : LoadFn) (ns : String) (ps : List Plugin) : Option Parent :=
  match nsFirst ns ps with
  | none => none
  | some p => some (mkGroupParent ns p.name (latestOf p).version (nsChildren load ns ps))

/-- The `rootCommands` entries the loop appends for `ps`, starting from a
`subcommandGroups` map whose key set is `keys`. -/
def newRefs (load : LoadFn) : List Plugin → List String → List RootRef
  | [], _ => []
  | p :: ps, keys =>
    if p.subcommand == "" then
      (pluginRootLeaves load p).map RootRef.leaf ++ newRefs load ps keys
    else if keys.contains p.subcommand then newRefs load ps keys
    else RootRef.group p.subcommand :: newRefs load ps (keys ++ [p.subcommand])

/-- Whether a root reference is the group reference of namespace `ns`. -/
def isGroupRef (ns : String) : RootRef → Bool
  | RootRef.group m => m == ns
  | RootRef.leaf _ => false

/-- Whether a forest entry is a subcommand-group parent for namespace
`ns`. -/
def isParentNs (ns : String) : RootCmd → Bool
  | RootCmd.parent q => q.use == ns
  | RootCmd.single _ => false

end plugins

theorem lookupNs_append (g : List (String × plugins.Parent)) (m ns : String)
    (q : plugins.Parent) :
    plugins.lookupNs (g ++ [(m, q)]) ns =
      match plugins.lookupNs g ns with
      | some par => some par
      | none => if m == ns then some q else none := by
  induction g with
  | nil => simp [plugins.lookupNs]
  | cons kv g' ih =>
    by_cases h : (kv.1 == ns) = true <;>
      simp [plugins.lookupNs, h, ih]

theorem lookupNs_addChildren (g : List (String × plugins.Parent)) (m ns : String)
    (kids : List plugins.Cmd) :
    plugins.lookupNs (plugins.addChildren g m kids) ns =
      if m == ns then
        (plugins.lookupNs g ns).map (fun par => { par with children := par.children ++ kids })
      else plugins.lookupNs g ns := by
  induction g with
  | nil => by_cases h : (m == ns) = true <;> simp [plugins.addChildren, plugins.lookupNs, h]
  | cons kv g' ih =>
    by_cases hkm : (kv.1 == m) = true <;> by_cases hkn : (kv.1 == ns) = true
    · have hmn : (m == ns) = true := by
        have h1 : kv.1 = m := by simpa using hkm
        have h2 : kv.1 = ns := by simpa using hkn
        simp [← h1, h2]
      simp [plugins.addChildren, plugins.lookupNs, hkm, hkn, hmn]
    · have hmn : (m == ns) = false := by
        have h1 : kv.1 = m := by simpa using hkm
        have h2 : ¬kv.1 = ns := by simpa using hkn
        subst h1
        simpa using h2
      simp [plugins.addChildren, plugins.lookupNs, hkm, hkn, hmn, ih]
    · have hmn : (m == ns) = false := by
        have h1 : ¬kv.1 = m := by simpa using hkm
        have h2 : kv.1 = ns := by simpa using hkn
        subst h2
        simp
        intro hc
        exact h1 hc.symm
      simp [plugins.addChildren, plugins.lookupNs, hkm, hkn, hmn]
    · simp [plugins.addChildren, plugins.lookupNs, hkm, hkn, ih]

theorem keysOf_addChildren (g : List (String × plugins.Parent)) (m : String)
    (kids : List plugins.Cmd) :
    plugins.keysOf (plugins.addChildren g m kids) = plugins.keysOf g := by
  induction g with
  | nil => rfl
  | cons kv g' ih =>
    by_cases h : (kv.1 == m) = true <;>
      simp [plugins.addChildren, plugins.keysOf, h] at ih ⊢ <;> exact ih

theorem lookupNs_none_iff (g : List (String × plugins.Parent)) (ns : String) :
    plugins.lookupNs g ns = none ↔ ns ∉ plugins.keysOf g := by
  induction g with
  | nil => simp [plugins.lookupNs, plugins.keysOf]
  | cons kv g' ih =>
    by_cases h : (kv.1 == ns) = true
    · have hkey : kv.1 = ns := by simpa using h
      simp [plugins.lookupNs, plugins.keysOf, h, hkey]
    · have hne : ns ≠ kv.1 := fun hc => absurd (by simp [hc]) h
      have hstep : plugins.lookupNs (kv :: g') ns = plugins.lookupNs g' ns := by
        simp [plugins.lookupNs, h]
      rw [hstep, ih]
      constructor
      · intro hnm hmem
        rcases List.mem_cons.mp hmem with hc | hc
        · exact hne hc
        · exact hnm hc
      · intro hnm hmem
        exact hnm (List.mem_cons_of_mem _ hmem)

theorem lookupNs_some_use (g : List (String × plugins.Parent)) (ns : String)
    (par : plugins.Parent) (hinv : ∀ kv ∈ g, (kv : String × plugins.Parent).2.use = kv.1)
    (h : plugins.lookupNs g ns = some par) : par.use = ns := by
  induction g with
  | nil => simp [plugins.lookupNs] at h
  | cons kv g' ih =>
    by_cases hk : (kv.1 == ns) = true
    · have hkey : kv.1 = ns := by simpa using hk
      have hv : kv.2 = par := by
        simp [plugins.lookupNs, hk] at h
        exact h
      rw [← hv, hinv kv (List.mem_cons_self kv g'), hkey]
    · simp only [plugins.lookupNs, hk, if_neg, Bool.false_eq_true, not_false_iff] at h
      exact ih (fun x hx => hinv x (List.mem_cons_of_mem kv hx)) h

theorem contains_iff_mem (l : List String) (a : String) : l.contains a = true ↔ a ∈ l :=
  List.elem_iff

theorem processPlugin_ok_inv (load : plugins.LoadFn) (s s₁ : plugins.BState)
    (p : plugins.Plugin) (h : plugins.processPlugin load s p = plugins.BuildRes.ok s₁) :
    plugins.processOk load p = true ∧
      s₁ = plugins.attach s p (plugins.latestOf p) (plugins.cmdsOf load p) := by
  cases hv : plugins.latestVersion? p with
  | none => simp [plugins.processPlugin, hv] at h
  | some latest =>
    cases hl : load p.uuid latest.version latest.conf with
    | error e => simp [plugins.processPlugin, hv, hl] at h
    | ok ycfg =>
      cases hball : plugins.buildAll ycfg.commands with
      | err e => simp [plugins.processPlugin, hv, hl, hball] at h
      | crash m => simp [plugins.processPlugin, hv, hl, hball] at h
      | ok cmds =>
        simp only [plugins.processPlugin, hv, hl, hball, plugins.BuildRes.ok.injEq] at h
        refine ⟨by simp [plugins.processOk, hv, hl, hball], ?_⟩
        rw [← h]
        simp [plugins.latestOf, plugins.cmdsOf, hv, hl, hball]

theorem nsChildren_cons (load : plugins.LoadFn) (ns : String) (p : plugins.Plugin)
    (ps : List plugins.Plugin) :
    plugins.nsChildren load ns (p :: ps) =
      if p.subcommand == ns then
        plugins.pluginChildren load p ++ plugins.nsChildren load ns ps
      else plugins.nsChildren load ns ps := by
  by_cases h : (p.subcommand == ns) = true <;>
    simp [plugins.nsChildren, List.filter_cons, h, concatMap]

theorem groupParent_cons_skip (load : plugins.LoadFn) (ns : String) (p : plugins.Plugin)
    (ps : List plugins.Plugin) (h : (p.subcommand == ns) = false) :
    plugins.groupParent load ns (p :: ps) = plugins.groupParent load ns ps := by
  simp [plugins.groupParent, plugins.nsFirst, plugins.nsChildren, List.filter_cons, h]

theorem groupParent_cons_decl (load : plugins.LoadFn) (ns : String) (p : plugins.Plugin)
    (ps : List plugins.Plugin) (h : (p.subcommand == ns) = true) :
    plugins.groupParent load ns (p :: ps) =
      some (plugins.mkGroupParent ns p.name (plugins.latestOf p).version
        (plugins.pluginChildren load p ++ plugins.nsChildren load ns ps)) := by
  simp [plugins.groupParent, plugins.nsFirst, plugins.nsChildren, List.filter_cons, h,
    concatMap]

theorem keysOf_append_single (g : List (String × plugins.Parent)) (m : String)
    (q : plugins.Parent) :
    plugins.keysOf (g ++ [(m, q)]) = plugins.keysOf g ++ [m] := by
  simp [plugins.keysOf]

theorem processPlugins_lookup_some (load : plugins.LoadFn) (ps : List plugins.Plugin) :
    ∀ (s s' : plugins.BState) (ns : String) (par : plugins.Parent),
      plugins.processPlugins load ps s = plugins.BuildRes.ok s' → ns ≠ "" →
      plugins.lookupNs s.groups ns = some par →
      plugins.lookupNs s'.groups ns =
        some { par with children := par.children ++ plugins.nsChildren load ns ps } := by
  induction ps with
  | nil =>
    intro s s' ns par hok hns hl
    simp only [plugins.processPlugins, plugins.BuildRes.ok.injEq] at hok
    subst hok
    simpa [plugins.nsChildren, concatMap] using hl
  | cons p ps' ih =>
    intro s s' ns par hok hns hl
    simp only [plugins.processPlugins] at hok
    cases hp : plugins.processPlugin load s p with
    | err e => simp only [hp] at hok; cases hok
    | crash m => simp only [hp] at hok; cases hok
    | ok s₁ =>
      simp only [hp] at hok
      obtain ⟨hpo, hs₁⟩ := processPlugin_ok_inv load s s₁ p hp
      subst hs₁
      by_cases hm0 : (p.subcommand == "") = true
      · have hg : (plugins.attach s p (plugins.latestOf p) (plugins.cmdsOf load p)).groups
            = s.groups := by
          simp [plugins.attach, hm0]
        have hsub : p.subcommand = "" := by simpa using hm0
        have hfil : (p.subcommand == ns) = false := by
          rw [hsub]
          have hns' : ¬("" = ns) := fun hc => hns hc.symm
          simp [hns']
        rw [nsChildren_cons, hfil]
        simp only [Bool.false_eq_true, if_neg, ite_false]
        exact ih _ _ ns par hok hns (by rw [hg]; exact hl)
      · cases hlm : plugins.lookupNs s.groups p.subcommand with
        | some q =>
          have hg : (plugins.attach s p (plugins.latestOf p) (plugins.cmdsOf load p)).groups
              = plugins.addChildren s.groups p.subcommand (plugins.pluginChildren load p) := by
            simp [plugins.attach, hm0, hlm, plugins.pluginChildren]
          by_cases hmn : (p.subcommand == ns) = true
          · have hl₁ : plugins.lookupNs
                (plugins.attach s p (plugins.latestOf p) (plugins.cmdsOf load p)).groups ns =
                some { par with children := par.children ++ plugins.pluginChildren load p } := by
              rw [hg, lookupNs_addChildren]
              simp [hmn, hl]
            have hres := ih _ _ ns _ hok hns hl₁
            rw [hres, nsChildren_cons, hmn]
            simp [List.append_assoc]
          · have hl₁ : plugins.lookupNs
                (plugins.attach s p (plugins.latestOf p) (plugins.cmdsOf load p)).groups ns =
                some par := by
              rw [hg, lookupNs_addChildren]
              simp [hmn, hl]
            have hres := ih _ _ ns _ hok hns hl₁
            rw [hres, nsChildren_cons]
            simp [hmn]
        | none =>
          have hmn : (p.subcommand == ns) = false := by
            cases hb : (p.subcommand == ns) with
            | false => rfl
            | true =>
              have heq : p.subcommand = ns := by simpa using hb
              rw [heq, hl] at hlm
              cases hlm
          have hg : (plugins.attach s p (plugins.latestOf p) (plugins.cmdsOf load p)).groups
              = s.groups ++ [(p.subcommand,
                  plugins.mkGroupParent p.subcommand p.name (plugins.latestOf p).version
                    (plugins.pluginChildren load p))] := by
            simp [plugins.attach, hm0, hlm, plugins.pluginChildren, plugins.mkGroupParent]
          have hl₁ : plugins.lookupNs
              (plugins.attach s p (plugins.latestOf p) (plugins.cmdsOf load p)).groups ns =
              some par := by
            rw [hg, lookupNs_append]
            simp [hl]
          have hres := ih _ _ ns _ hok hns hl₁
          rw [hres, nsChildren_cons]
          simp [hmn]

theorem processPlugins_lookup_none (load : plugins.LoadFn) (ps : List plugins.Plugin) :
    ∀ (s s' : plugins.BState) (ns : String),
      plugins.processPlugins load ps s = plugins.BuildRes.ok s' → ns ≠ "" →
      plugins.lookupNs s.groups ns = none →
      plugins.lookupNs s'.groups ns = plugins.groupParent load ns ps := by
  induction ps with
  | nil =>
    intro s s' ns hok hns hl
    simp only [plugins.processPlugins, plugins.BuildRes.ok.injEq] at hok
    subst hok
    simpa [plugins.groupParent, plugins.nsFirst] using hl
  | cons p ps' ih =>
    intro s s' ns hok hns hl
    simp only [plugins.processPlugins] at hok
    cases hp : plugins.processPlugin load s p with
    | err e => simp only [hp] at hok; cases hok
    | crash m => simp only [hp] at hok; cases hok
    | ok s₁ =>
      simp only [hp] at hok
      obtain ⟨hpo, hs₁⟩ := processPlugin_ok_inv load s s₁ p hp
      subst hs₁
      by_cases hm0 : (p.subcommand == "") = true
      · have hg : (plugins.attach s p (plugins.latestOf p) (plugins.cmdsOf load p)).groups
            = s.groups := by
          simp [plugins.attach, hm0]
        have hsub : p.subcommand = "" := by simpa using hm0
        have hfil : (p.subcommand == ns) = false := by
          rw [hsub]
          have hns' : ¬("" = ns) := fun hc => hns hc.symm
          simp [hns']
        rw [groupParent_cons_skip load ns p ps' hfil]
        exact ih _ _ ns hok hns (by rw [hg]; exact hl)
      · cases hlm : plugins.lookupNs s.groups p.subcommand with
        | some q =>
          have hmn : (p.subcommand == ns) = false := by
            cases hb : (p.subcommand == ns) with
            | false => rfl
            | true =>
              have heq : p.subcommand = ns := by simpa using hb
              rw [heq, hl] at hlm
              cases hlm
          have hg : (plugins.attach s p (plugins.latestOf p) (plugins.cmdsOf load p)).groups
              = plugins.addChildren s.groups p.subcommand (plugins.pluginChildren load p) := by
            simp [plugins.attach, hm0, hlm, plugins.pluginChildren]
          have hl₁ : plugins.lookupNs
              (plugins.attach s p (plugins.latestOf p) (plugins.cmdsOf load p)).groups ns =
              none := by
            rw [hg, lookupNs_addChildren]
            simp [hmn, hl]
          rw [groupParent_cons_skip load ns p ps' hmn]
          exact ih _ _ ns hok hns hl₁
        | none =>
          have hg : (plugins.attach s p (plugins.latestOf p) (plugins.cmdsOf load p)).groups
              = s.groups ++ [(p.subcommand,
                  plugins.mkGroupParent p.subcommand p.name (plugins.latestOf p).version
                    (plugins.pluginChildren load p))] := by
            simp [plugins.attach, hm0, hlm, plugins.pluginChildren, plugins.mkGroupParent]
          by_cases hmn : (p.subcommand == ns) = true
          · have heq : p.subcommand = ns := by simpa using hmn
            have hl₁ : plugins.lookupNs
                (plugins.attach s p (plugins.latestOf p) (plugins.cmdsOf load p)).groups ns =
                some (plugins.mkGroupParent p.subcommand p.name (plugins.latestOf p).version
                  (plugins.pluginChildren load p)) := by
              rw [hg, lookupNs_append, hl]
              simp [heq]
            have hres := processPlugins_lookup_some load ps' _ _ ns _ hok hns hl₁
            rw [hres, groupParent_cons_decl load ns p ps' hmn]
            simp [plugins.mkGroupParent, heq]
          · have hl₁ : plugins.lookupNs
                (plugins.attach s p (plugins.latestOf p) (plugins.cmdsOf load p)).groups ns =
                none := by
              rw [hg, lookupNs_append, hl]
              simp [hmn]
            rw [groupParent_cons_skip load ns p ps' (by simpa using hmn)]
            exact ih _ _ ns hok hns hl₁

theorem processPlugins_order (load : plugins.LoadFn) (ps : List plugins.Plugin) :
    ∀ (s s' : plugins.BState),
      plugins.processPlugins load ps s = plugins.BuildRes.ok s' →
      s'.order = s.order ++ plugins.newRefs load ps (plugins.keysOf s.groups) := by
  induction ps with
  | nil =>
    intro s s' hok
    simp only [plugins.processPlugins, plugins.BuildRes.ok.injEq] at hok
    subst hok
    simp [plugins.newRefs]
  | cons p ps' ih =>
    intro s s' hok
    simp only [plugins.processPlugins] at hok
    cases hp : plugins.processPlugin load s p with
    | err e => simp only [hp] at hok; cases hok
    | crash m => simp only [hp] at hok; cases hok
    | ok s₁ =>
      simp only [hp] at hok
      obtain ⟨hpo, hs₁⟩ := processPlugin_ok_inv load s s₁ p hp
      subst hs₁
      by_cases hm0 : (p.subcommand == "") = true
      · have hgroups : (plugins.attach s p (plugins.latestOf p) (plugins.cmdsOf load p)).groups
            = s.groups := by
          simp [plugins.attach, hm0]
        have horder : (plugins.attach s p (plugins.latestOf p) (plugins.cmdsOf load p)).order
            = s.order ++ (plugins.pluginRootLeaves load p).map plugins.RootRef.leaf := by
          simp [plugins.attach, hm0, plugins.pluginRootLeaves, Function.comp]
        rw [ih _ _ hok, horder, hgroups]
        simp [plugins.newRefs, hm0, List.append_assoc]
      · cases hlm : plugins.lookupNs s.groups p.subcommand with
        | some q =>
          have hmem : p.subcommand ∈ plugins.keysOf s.groups := by
            by_contra hc
            rw [← lookupNs_none_iff] at hc
            rw [hc] at hlm
            cases hlm
          have hcont : (plugins.keysOf s.groups).contains p.subcommand = true :=
            (contains_iff_mem _ _).mpr hmem
          have hkeys : plugins.keysOf
              (plugins.attach s p (plugins.latestOf p) (plugins.cmdsOf load p)).groups
              = plugins.keysOf s.groups := by
            simp [plugins.attach, hm0, hlm, keysOf_addChildren]
          have horder : (plugins.attach s p (plugins.latestOf p) (plugins.cmdsOf load p)).order
              = s.order := by
            simp [plugins.attach, hm0, hlm]
          rw [ih _ _ hok, horder, hkeys]
          simp only [plugins.newRefs, hm0, hcont]
          simp [hmem]
        | none =>
          have hnotmem : p.subcommand ∉ plugins.keysOf s.groups :=
            (lookupNs_none_iff _ _).mp hlm
          have hcont : (plugins.keysOf s.groups).contains p.subcommand = false := by
            cases hb : (plugins.keysOf s.groups).contains p.subcommand with
            | false => rfl
            | true => exact absurd ((contains_iff_mem _ _).mp hb) hnotmem
          have hg : (plugins.attach s p (plugins.latestOf p) (plugins.cmdsOf load p)).groups
              = s.groups ++ [(p.subcommand,
                  plugins.mkGroupParent p.subcommand p.name (plugins.latestOf p).version
                    (plugins.pluginChildren load p))] := by
            simp [plugins.attach, hm0, hlm, plugins.pluginChildren, plugins.mkGroupParent]
          have hkeys : plugins.keysOf
              (plugins.attach s p (plugins.latestOf p) (plugins.cmdsOf load p)).groups
              = plugins.keysOf s.groups ++ [p.subcommand] := by
            rw [hg, keysOf_append_single]
          have horder : (plugins.attach s p (plugins.latestOf p) (plugins.cmdsOf load p)).order
              = s.order ++ [plugins.RootRef.group p.subcommand] := by
            simp [plugins.attach, hm0, hlm]
          rw [ih _ _ hok, horder, hkeys]
          simp only [plugins.newRefs, hm0, hcont, List.append_assoc]
          simp [hnotmem]

theorem addChildren_useInv (g : List (String × plugins.Parent)) (m : String)
    (kids : List plugins.Cmd)
    (hinv : ∀ kv ∈ g, (kv : String × plugins.Parent).2.use = kv.1) :
    ∀ kv ∈ plugins.addChildren g m kids, (kv : String × plugins.Parent).2.use = kv.1 := by
  induction g with
  | nil => intro kv h; cases h
  | cons x g' ih =>
    intro kv hkv
    have hx := hinv x (List.mem_cons_self x g')
    have hrest : ∀ kv ∈ g', (kv : String × plugins.Parent).2.use = kv.1 :=
      fun y hy => hinv y (List.mem_cons_of_mem x hy)
    by_cases h : (x.1 == m) = true
    · simp only [plugins.addChildren, h, if_pos] at hkv
      rcases List.mem_cons.mp hkv with hc | hc
      · rw [hc]
        simpa using hx
      · exact ih hrest kv hc
    · simp only [plugins.addChildren, h, if_neg, Bool.false_eq_true, not_false_iff] at hkv
      rcases List.mem_cons.mp hkv with hc | hc
      · rw [hc]; exact hx
      · exact ih hrest kv hc

theorem processPlugins_useInv (load : plugins.LoadFn) (ps : List plugins.Plugin) :
    ∀ (s s' : plugins.BState),
      plugins.processPlugins load ps s = plugins.BuildRes.ok s' →
      (∀ kv ∈ s.groups, (kv : String × plugins.Parent).2.use = kv.1) →
      ∀ kv ∈ s'.groups, (kv : String × plugins.Parent).2.use = kv.1 := by
  induction ps with
  | nil =>
    intro s s' hok hinv
    simp only [plugins.processPlugins, plugins.BuildRes.ok.injEq] at hok
    subst hok
    exact hinv
  | cons p ps' ih =>
    intro s s' hok hinv
    simp only [plugins.processPlugins] at hok
    cases hp : plugins.processPlugin load s p with
    | err e => simp only [hp] at hok; cases hok
    | crash m => simp only [hp] at hok; cases hok
    | ok s₁ =>
      simp only [hp] at hok
      obtain ⟨hpo, hs₁⟩ := processPlugin_ok_inv load s s₁ p hp
      subst hs₁
      refine ih _ _ hok ?_
      by_cases hm0 : (p.subcommand == "") = true
      · simpa [plugins.attach, hm0] using hinv
      · cases hlm : plugins.lookupNs s.groups p.subcommand with
        | some q =>
          have hg : (plugins.attach s p (plugins.latestOf p) (plugins.cmdsOf load p)).groups
              = plugins.addChildren s.groups p.subcommand (plugins.pluginChildren load p) := by
            simp [plugins.attach, hm0, hlm, plugins.pluginChildren]
          rw [hg]
          exact addChildren_useInv s.groups p.subcommand (plugins.pluginChildren load p) hinv
        | none =>
          have hg : (plugins.attach s p (plugins.latestOf p) (plugins.cmdsOf load p)).groups
              = s.groups ++ [(p.subcommand,
                  plugins.mkGroupParent p.subcommand p.name (plugins.latestOf p).version
                    (plugins.pluginChildren load p))] := by
            simp [plugins.attach, hm0, hlm, plugins.pluginChildren, plugins.mkGroupParent]
          rw [hg]
          intro kv hkv
          rcases List.mem_append.mp hkv with hc | hc
          · exact hinv kv hc
          · rcases List.mem_singleton.mp hc with rfl
            simp [plugins.mkGroupParent]

theorem filter_group_leaves (ns : String) (cs : List plugins.Cmd) :
    (cs.map plugins.RootRef.leaf).filter (plugins.isGroupRef ns) = [] := by
  induction cs with
  | nil => rfl
  | cons c cs ih => simp [plugins.isGroupRef, ih]

theorem newRefs_filter_mem (load : plugins.LoadFn) (ns : String) :
    ∀ (ps : List plugins.Plugin) (keys : List String), ns ∈ keys →
      (plugins.newRefs load ps keys).filter (plugins.isGroupRef ns) = [] := by
  intro ps
  induction ps with
  | nil => intro keys _; rfl
  | cons p ps' ih =>
    intro keys hmem
    by_cases hm0 : (p.subcommand == "") = true
    · simp only [plugins.newRefs, hm0, if_pos, List.filter_append]
      rw [filter_group_leaves, ih keys hmem]
      rfl
    · by_cases hc : (keys.contains p.subcommand) = true
      · simp only [plugins.newRefs, hm0, hc]
        simp only [Bool.false_eq_true, ite_false, ite_true]
        exact ih keys hmem
      · have hmns : (p.subcommand == ns) = false := by
          cases hb : (p.subcommand == ns) with
          | false => rfl
          | true =>
            have heq : p.subcommand = ns := by simpa using hb
            rw [heq] at hc
            exact absurd ((contains_iff_mem keys ns).mpr hmem) hc
        simp only [plugins.newRefs, hm0, hc]
        simp only [Bool.false_eq_true, ite_false]
        rw [List.filter_cons]
        simp only [plugins.isGroupRef, hmns]
        simp only [Bool.false_eq_true, ite_false]
        exact ih (keys ++ [p.subcommand]) (List.mem_append_left _ hmem)

theorem newRefs_filter_notmem (load : plugins.LoadFn) (ns : String) :
    ∀ (ps : List plugins.Plugin) (keys : List String), ns ≠ "" → ns ∉ keys →
      (plugins.newRefs load ps keys).filter (plugins.isGroupRef ns) =
        if ps.any (fun p => p.subcommand == ns) then [plugins.RootRef.group ns] else [] := by
  intro ps
  induction ps with
  | nil => intro keys _ _; rfl
  | cons p ps' ih =>
    intro keys hns hnm
    by_cases hm0 : (p.subcommand == "") = true
    · have hsub : p.subcommand = "" := by simpa using hm0
      have hmns : (p.subcommand == ns) = false := by
        rw [hsub]
        have hns' : ¬("" = ns) := fun hc => hns hc.symm
        simp [hns']
      simp only [plugins.newRefs, hm0, if_pos, List.filter_append, List.any_cons, hmns]
      rw [filter_group_leaves, ih keys hns hnm]
      simp
    · by_cases hc : (keys.contains p.subcommand) = true
      · have hmns : (p.subcommand == ns) = false := by
          cases hb : (p.subcommand == ns) with
          | false => rfl
          | true =>
            have heq : p.subcommand = ns := by simpa using hb
            rw [heq] at hc
            exact absurd ((contains_iff_mem keys ns).mp hc) hnm
        simp only [plugins.newRefs, hm0, hc, List.any_cons, hmns]
        simp only [Bool.false_eq_true, ite_false, ite_true, Bool.false_or]
        exact ih keys hns hnm
      · by_cases hmns : (p.subcommand == ns) = true
        · have heq : p.subcommand = ns := by simpa using hmns
          simp only [plugins.newRefs, hm0, hc, List.any_cons, hmns]
          simp only [Bool.false_eq_true, ite_false, Bool.true_or, ite_true]
          rw [List.filter_cons]
          simp only [plugins.isGroupRef, hmns]
          rw [newRefs_filter_mem load ns ps' (keys ++ [p.subcommand])
            (by rw [heq]; exact List.mem_append_right _ (List.mem_singleton_self ns))]
          simp [heq]
        · have hmns' : (p.subcommand == ns) = false := by simpa using hmns
          simp only [plugins.newRefs, hm0, hc, List.any_cons, hmns']
          simp only [Bool.false_eq_true, ite_false, Bool.false_or]
          rw [List.filter_cons]
          simp only [plugins.isGroupRef, hmns']
          simp only [Bool.false_eq_true, ite_false]
          refine ih (keys ++ [p.subcommand]) hns ?_
          intro hmem
          rcases List.mem_append.mp hmem with h | h
          · exact hnm h
          · have : ns = p.subcommand := List.mem_singleton.mp h
            rw [this] at hmns'
            simp at hmns'

theorem forest_filter_parents (groups : List (String × plugins.Parent))
    (order : List plugins.RootRef) (ns : String)
    (hinv : ∀ kv ∈ groups, (kv : String × plugins.Parent).2.use = kv.1) :
    (order.map (plugins.resolveRef groups)).filter (plugins.isParentNs ns) =
      (order.filter (plugins.isGroupRef ns)).map (plugins.resolveRef groups) := by
  rw [List.filter_map]
  congr 1
  apply List.filter_congr
  intro r _
  cases r with
  | leaf c => simp [plugins.resolveRef, plugins.isParentNs, plugins.isGroupRef, Function.comp]
  | group m =>
    simp only [Function.comp, plugins.resolveRef, plugins.isParentNs, plugins.isGroupRef]
    cases hl : plugins.lookupNs groups m with
    | none => simp
    | some par =>
      have huse := lookupNs_some_use groups m par hinv hl
      simp [huse]

/-- C6: when two or more plugins declare the same non-empty subcommand
namespace, the built forest contains exactly one parent command for that
namespace; its display metadata (short/long, naming plugin and version)
comes from the first declaring plugin in registry order, and its children
are the concatenation of all declaring plugins' built manifest commands in
registry order. -/
theorem c6_confirmed (load : plugins.LoadFn) (cfg : plugins.PluginConfig)
    (forest : List plugins.RootCmd) (ns : String) (p : plugins.Plugin)
    (rest : List plugins.Plugin) (latest : plugins.Version)
    (hok : plugins.GetPluginCommands load cfg = plugins.BuildRes.ok forest)
    (hns : ns ≠ "")
    (hfil : cfg.plugins.filter (fun q => q.subcommand == ns) = p :: rest)
    (_hrest : rest ≠ [])
    (hlat : plugins.latestVersion? p = some latest) :
    forest.filter (plugins.isParentNs ns) =
      [plugins.RootCmd.parent (plugins.mkGroupParent ns p.name latest.version
        (concatMap (plugins.pluginChildren load) (p :: rest)))] := by
  unfold plugins.GetPluginCommands at hok
  cases hs : plugins.processPlugins load cfg.plugins { groups := [], order := [] } with
  | err e => rw [hs] at hok; cases hok
  | crash m => rw [hs] at hok; cases hok
  | ok s =>
    rw [hs] at hok
    simp only [plugins.BuildRes.ok.injEq] at hok
    subst hok
    have hinv : ∀ kv ∈ s.groups, (kv : String × plugins.Parent).2.use = kv.1 :=
      processPlugins_useInv load cfg.plugins _ s hs (by intro kv h; cases h)
    have hlookup : plugins.lookupNs s.groups ns = plugins.groupParent load ns cfg.plugins :=
      processPlugins_lookup_none load cfg.plugins _ s ns hs hns rfl
    have horder : s.order = plugins.newRefs load cfg.plugins [] := by
      have := processPlugins_order load cfg.plugins _ s hs
      simpa [plugins.keysOf] using this
    have hany : cfg.plugins.any (fun q => q.subcommand == ns) = true := by
      rw [List.any_eq_true]
      have hp : p ∈ cfg.plugins.filter (fun q => q.subcommand == ns) := by
        rw [hfil]; exact List.mem_cons_self p rest
      rcases List.mem_filter.mp hp with ⟨hmem, hprop⟩
      exact ⟨p, hmem, hprop⟩
    have hgp : plugins.groupParent load ns cfg.plugins =
        some (plugins.mkGroupParent ns p.name latest.version
          (concatMap (plugins.pluginChildren load) (p :: rest))) := by
      unfold plugins.groupParent plugins.nsFirst plugins.nsChildren
      rw [hfil]
      simp only [List.head?_cons, plugins.latestOf, hlat, Option.getD_some]
    rw [forest_filter_parents s.groups s.order ns hinv, horder,
      newRefs_filter_notmem load ns cfg.plugins [] hns (by simp), hany]
    simp only [ite_true, List.map_cons, List.map_nil, plugins.resolveRef]
    rw [hlookup, hgp]
    rfl

/-- The two plugins sharing the `pkg` namespace for the C6 witness, and a
load environment giving each a one-command manifest. -/
def pC6a : plugins.Plugin :=
  { name := "alpha", uuid := "ua",
    versions := [{ version := "1.1", wasm := "a.wasm", conf := "a.yml" }], subcommand := "pkg" }

def pC6b : plugins.Plugin :=
  { name := "beta", uuid := "ub",
    versions := [{ version := "3.0", wasm := "b.wasm", conf := "b.yml" }], subcommand := "pkg" }

def loadC6 : plugins.LoadFn :=
  fun uuid _ _ =>
    if uuid == "ua" then
      Except.ok { name := "alpha", version := "1.1",
                  commands := [{ name := "install", descrEN := "install a package",
                                 usage := "wpcli install <package>", examples := [],
                                 args := [], flags := [] }] }
    else
      Except.ok { name := "beta", version := "3.0",
                  commands := [{ name := "remove", descrEN := "remove a package",
                                 usage := "wpcli remove <package>", examples := [],
                                 args := [], flags := [] }] }

def cfgC6 : plugins.PluginConfig := { plugins := [pC6a, pC6b] }

/-- The forest the build produces for `cfgC6`. -/
def forestC6 : List plugins.RootCmd :=
  match plugins.GetPluginCommands loadC6 cfgC6 with
  | plugins.BuildRes.ok f => f
  | _ => []

/-- C6 witness: on the two-plugin `pkg` registry, the forest has exactly
one `pkg` parent whose metadata names the first plugin `alpha` v1.1 and
whose children are both plugins' commands in order. -/
theorem c6_witness :
    plugins.GetPluginCommands loadC6 cfgC6 = plugins.BuildRes.ok forestC6 ∧
      cfgC6.plugins.filter (fun q => q.subcommand == "pkg") = pC6a :: [pC6b] ∧
      forestC6.filter (plugins.isParentNs "pkg") =
        [plugins.RootCmd.parent (plugins.mkGroupParent "pkg" "alpha" "1.1"
          (concatMap (plugins.pluginChildren loadC6) (pC6a :: [pC6b])))] :=
  ⟨rfl, rfl,
    c6_confirmed loadC6 cfgC6 forestC6 "pkg" pC6a [pC6b]
      { version := "1.1", wasm := "a.wasm", conf := "a.yml" }
      rfl (by decide) rfl (by decide) rfl⟩

namespace cmd

/-- Go `strings.Fields(use)[0]`: the first whitespace-separated token of a
`Use` string (meaningful only when a token exists — Go would panic
otherwise, cf. `hasTok`). -/
def firstTok (s : String) : String :=
  ⟨(s.data.dropWhile Char.isWhitespace).takeWhile (fun c => !c.isWhitespace)⟩

/-- Whether `strings.Fields(use)` is non-empty, i.e. indexing `[0]` is
defined. -/
def hasTok (s : String) : Bool := !(s.data.dropWhile Char.isWhitespace).isEmpty

/-- A direct child command of the root command, reduced to the `Use`
string that `loadPluginCommands` reads. -/
structure RootChild where
  use : String
deriving DecidableEq

/-- The plugin-command loop of `loadPluginCommands` (root.go): a plugin
command whose first `Use` token is already in the `existingCommands` set is
silently skipped (`continue` — no error and no warning); otherwise it is
added and its token recorded.  The function always returns nil after the
loop, so a skip can never surface as an error. -/
def keptCmds (seen : List String) : List RootChild → List RootChild
  | [] => []
  | c :: cs =>
    if seen.contains (firstTok c.use) then keptCmds seen cs
    else c :: keptCmds (firstTok c.use :: seen) cs

end cmd

theorem keptCmds_tok_notin_seen (cs : List cmd.RootChild) :
    ∀ (seen : List String) (d : cmd.RootChild), d ∈ cmd.keptCmds seen cs →
      cmd.firstTok d.use ∉ seen := by
  induction cs with
  | nil => intro seen d h; cases h
  | cons c cs ih =>
    intro seen d h
    by_cases hc : (seen.contains (cmd.firstTok c.use)) = true
    · simp only [cmd.keptCmds, hc, if_pos] at h
      exact ih seen d h
    · simp only [cmd.keptCmds, hc] at h
      simp only [Bool.false_eq_true, ite_false] at h
      rcases List.mem_cons.mp h with hd | hd
      · subst hd
        intro hmem
        exact hc ((contains_iff_mem seen (cmd.firstTok d.use)).mpr hmem)
      · have := ih (cmd.firstTok c.use :: seen) d hd
        intro hmem
        exact this (List.mem_cons_of_mem _ hmem)

theorem keptCmds_toks_nodup (cs : List cmd.RootChild) :
    ∀ (seen : List String),
      ((cmd.keptCmds seen cs).map (fun d => cmd.firstTok d.use)).Nodup := by
  induction cs with
  | nil => intro seen; simp [cmd.keptCmds]
  | cons c cs ih =>
    intro seen
    by_cases hc : (seen.contains (cmd.firstTok c.use)) = true
    · simp only [cmd.keptCmds, hc, if_pos]
      exact ih seen
    · simp only [cmd.keptCmds, hc]
      simp only [Bool.false_eq_true, ite_false, List.map_cons]
      rw [List.nodup_cons]
      constructor
      · intro hmem
        rcases List.mem_map.mp hmem with ⟨d, hd, htok⟩
        have := keptCmds_tok_notin_seen cs (cmd.firstTok c.use :: seen) d hd
        exact this (by rw [htok]; exact List.mem_cons_self _ _)
      · exact ih (cmd.firstTok c.use :: seen)

/-- C10: after `loadPluginCommands`, the first `Use` tokens of the root's
direct children are pairwise distinct: starting from built-in children with
distinct tokens, a plugin command whose token collides with a built-in or
with an earlier plugin command is silently skipped (never added), so
built-ins always shadow same-named plugin commands.  (The two `hasTok`
hypotheses record that every `Use` string has a first token, which the Go
code requires to not panic at `strings.Fields(cmd.Use)[0]`.) -/
theorem c10_confirmed (builtins pluginCmds : List cmd.RootChild) (c : cmd.RootChild)
    (hnodup : (builtins.map (fun b => cmd.firstTok b.use)).Nodup)
    (_hwf1 : ∀ b ∈ builtins, cmd.hasTok b.use = true)
    (_hwf2 : ∀ b ∈ pluginCmds, cmd.hasTok b.use = true) :
    (((builtins ++ cmd.keptCmds (builtins.map (fun b => cmd.firstTok b.use)) pluginCmds).map
        (fun b => cmd.firstTok b.use)).Nodup) ∧
      (c ∈ pluginCmds →
        cmd.firstTok c.use ∈ builtins.map (fun b => cmd.firstTok b.use) →
        c ∉ cmd.keptCmds (builtins.map (fun b => cmd.firstTok b.use)) pluginCmds) := by
  constructor
  · rw [List.map_append, List.nodup_append]
    refine ⟨hnodup, keptCmds_toks_nodup pluginCmds _, ?_⟩
    intro t ht hmem
    rcases List.mem_map.mp hmem with ⟨d, hd, htok⟩
    have := keptCmds_tok_notin_seen pluginCmds _ d hd
    rw [htok] at this
    exact this ht
  · intro _ hmem hkept
    exact keptCmds_tok_notin_seen pluginCmds _ c hkept hmem

/-- The concrete C10 witness data: built-ins `list` and `info`, plugin
commands `install <package>` and a colliding `list`. -/
def builtinsC10 : List cmd.RootChild := [{ use := "list" }, { use := "info [plugin-name]" }]

def pluginCmdsC10 : List cmd.RootChild := [{ use := "install <package>" }, { use := "list" }]

/-- C10 witness: the plugin `list` command is skipped (the built-in
shadows it) and the final direct-children tokens are pairwise distinct. -/
theorem c10_witness :
    ((builtinsC10.map (fun b => cmd.firstTok b.use)).Nodup) ∧
      ((((builtinsC10 ++ cmd.keptCmds (builtinsC10.map (fun b => cmd.firstTok b.use))
            pluginCmdsC10).map (fun b => cmd.firstTok b.use)).Nodup) ∧
        (({ use := "list" } : cmd.RootChild) ∈ pluginCmdsC10 →
          cmd.firstTok (({ use := "list" } : cmd.RootChild)).use ∈
            builtinsC10.map (fun b => cmd.firstTok b.use) →
          ({ use := "list" } : cmd.RootChild) ∉
            cmd.keptCmds (builtinsC10.map (fun b => cmd.firstTok b.use)) pluginCmdsC10)) :=
  ⟨by decide,
    c10_confirmed builtinsC10 pluginCmdsC10 { use := "list" } (by decide) (by decide)
      (by decide)⟩
